import Mathlib

/-!
Shallow embedding of the streaming core of `src/app/lib/vertex-ai.ts`
(`streamAnswer`, lines 398–642): the brace-matching chunk reassembler that
extracts complete JSON objects from a byte buffer, and the answer-delta
reconciler that turns cumulative `AnswerSnapshot`s into chunk / metadata /
done events.

Text is modelled as `List Char`; JavaScript's `s.length`, `s.startsWith(t)`
and `s.slice(n)` become `List.length`, `List.isPrefixOf` and `List.drop`.
JavaScript truthiness of a string is emptiness; optional fields are `Option`.
-/

namespace VertexStream

/-! ## Chunk reassembler (vertex-ai.ts lines 485–523, 626–628)

The JS loop rescans the whole `buffer` with fresh local variables
(`startIndex`, `braceCount`, `inString`, `escapeNext`, `objectStart`) on each
received network chunk.  The scan state below carries, in place of the index
variables, the text they denote: `objAcc` is `buffer.slice(objectStart, i)`
(empty when `objectStart === -1`, tracked by `objActive`), and `pending` is
`buffer.slice(startIndex, i)`, so that after the loop the retained buffer
`buffer.slice(startIndex)` is exactly `pending`. -/

structure ScanState where
  braceCount : Int
  inString : Bool
  escapeNext : Bool
  objActive : Bool
  objAcc : List Char
  pending : List Char
deriving Repr, DecidableEq

def initScan : ScanState :=
  { braceCount := 0, inString := false, escapeNext := false,
    objActive := false, objAcc := [], pending := [] }

/-- One iteration of the `for (let i = 0; i < buffer.length; i++)` body.
Returns the new state and, when this character closes a depth-0 object,
the extracted object string `buffer.slice(objectStart, i + 1)`. -/
def scanChar (st : ScanState) (c : Char) : ScanState × Option (List Char) :=
  let pending := st.pending ++ [c]
  let objAcc := if st.objActive then st.objAcc ++ [c] else st.objAcc
  if st.escapeNext then
    ({ st with escapeNext := false, pending := pending, objAcc := objAcc }, none)
  else if c = '\\' ∧ st.inString then
    ({ st with escapeNext := true, pending := pending, objAcc := objAcc }, none)
  else if c = '"' ∧ ¬st.escapeNext then
    ({ st with inString := !st.inString, pending := pending, objAcc := objAcc }, none)
  else if st.inString then
    ({ st with pending := pending, objAcc := objAcc }, none)
  else if c = '{' then
    if st.braceCount = 0 then
      -- objectStart = i; braceCount++
      ({ st with braceCount := st.braceCount + 1, objActive := true,
                 objAcc := [c], pending := pending }, none)
    else
      ({ st with braceCount := st.braceCount + 1, pending := pending, objAcc := objAcc }, none)
  else if c = '}' then
    if st.braceCount - 1 = 0 ∧ st.objActive then
      -- complete object: jsonStr = buffer.slice(objectStart, i+1); startIndex = i+1
      ({ st with braceCount := st.braceCount - 1, objActive := false,
                 objAcc := [], pending := [] }, some objAcc)
    else
      ({ st with braceCount := st.braceCount - 1, pending := pending, objAcc := objAcc }, none)
  else
    ({ st with pending := pending, objAcc := objAcc }, none)

/-- The whole scan loop over a character list, collecting extracted objects
in order. -/
def scanList (st : ScanState) : List Char → ScanState × List (List Char)
  | [] => (st, [])
  | c :: cs =>
    let p := scanChar st c
    let q := scanList p.1 cs
    (q.1, p.2.toList ++ q.2)

/-- One outer-loop iteration on a buffer: scan with fresh state, return the
extracted complete JSON object strings (in order) and the retained buffer
(`buffer.slice(startIndex)`). -/
def processBuffer (buf : List Char) : List (List Char) × List Char :=
  let r := scanList initScan buf
  (r.2, r.1.pending)

/-- The reassembler run over a sequence of received chunks: each chunk is
appended to the retained buffer and the buffer rescanned
(`buffer += chunk` then the scan).  Returns all extracted objects in order
and the final retained buffer. -/
def feedAll (buf : List Char) : List (List Char) → List (List Char) × List Char
  | [] => ([], buf)
  | ch :: rest =>
    let r := processBuffer (buf ++ ch)
    let s := feedAll r.2 rest
    (r.1 ++ s.1, s.2)

/-- A string delivered one character per chunk. -/
def oneCharChunks (s : List Char) : List (List Char) :=
  s.map (fun c => [c])

/-! ## Data model of one decoded snapshot (`VertexAnswerResponse`)

Only the fields `streamAnswer` reads are modelled.  Fields whose text is
manipulated (`answerText`, `session.name`) are `List Char`; fields that are
only tested for emptiness and carried through are `String`. -/

structure ChunkContent where
  content : Option String
  pageIdentifier : Option String
deriving Repr, DecidableEq

structure UnstructuredDocumentInfo where
  document : Option String
  uri : Option String
  title : Option String
  chunkContents : Option (List ChunkContent)
deriving Repr, DecidableEq

structure DocumentMetadata where
  document : Option String
  uri : Option String
  title : Option String
deriving Repr, DecidableEq

structure ChunkInfo where
  content : Option String
  documentMetadata : Option DocumentMetadata
deriving Repr, DecidableEq

structure RawReference where
  unstructuredDocumentInfo : Option UnstructuredDocumentInfo
  chunkInfo : Option ChunkInfo
deriving Repr, DecidableEq

structure AnswerPart where
  state : Option String
  answerText : Option (List Char)
  relatedQuestions : Option (List String)
  references : Option (List RawReference)
deriving Repr, DecidableEq

structure SessionPart where
  name : Option (List Char)
deriving Repr, DecidableEq

structure Snapshot where
  answer : Option AnswerPart
  session : Option SessionPart
deriving Repr, DecidableEq

/-- The reference records pushed onto `references` (vertex-ai.ts 592–609). -/
structure OutReference where
  title : Option String
  uri : Option String
  content : Option String
deriving Repr, DecidableEq

/-- Events yielded by the generator. A plain delta `yield {type:"chunk",
content}` carries `replace := false` (the field is absent, hence falsy). -/
inductive OutEvent where
  | chunk (content : List Char) (replace : Bool)
  | metadata (sessionId : Option (List Char)) (relatedQuestions : List String)
      (references : List OutReference)
  | done
deriving Repr, DecidableEq

/-- Reconciler state: the `let` variables of `streamAnswer` that survive
between snapshots (vertex-ai.ts 458–462). -/
structure RState where
  lastAnswerText : List Char
  extractedSessionId : Option (List Char)
  relatedQuestions : List String
  references : List OutReference
deriving Repr, DecidableEq

def initRState : RState :=
  { lastAnswerText := [], extractedSessionId := none,
    relatedQuestions := [], references := [] }

/-! ## Session-id extraction (vertex-ai.ts 529–533)

`parsed.session.name.split("/sessions/")[1] || null`.  JavaScript `split`
with a non-empty string separator cuts at every occurrence; element `[1]`
is the text between the first occurrence and the second occurrence (or the
end).  `findSep sep s` locates the first occurrence of `sep` in `s`,
returning the text before it and the text after it. -/

def findSep (sep : List Char) : List Char → Option (List Char × List Char)
  | [] => if sep.isPrefixOf ([] : List Char) then some ([], []) else none
  | c :: cs =>
    if sep.isPrefixOf (c :: cs) then some ([], (c :: cs).drop sep.length)
    else (findSep sep cs).map (fun p => (c :: p.1, p.2))

/-- Element 1 of `s.split(sep)`: `none` when `sep` does not occur in `s` (the split
array has length 1), otherwise the segment after the first occurrence, cut
at the next occurrence if any. -/
def splitSecond (sep s : List Char) : Option (List Char) :=
  match findSep sep s with
  | none => none
  | some p =>
    match findSep sep p.2 with
    | none => some p.2
    | some q => some q.1

def sessionsSep : List Char := "/sessions/".data

/-- Evaluation of `name.split("/sessions/")[1] || null`: the `|| null` maps the empty
string (and a missing element) to `null`. -/
def extractSessionId (name : List Char) : Option (List Char) :=
  match splitSecond sessionsSep name with
  | none => none
  | some t => if t = [] then none else some t

/-! ## One snapshot through the reconciler (vertex-ai.ts 524–610) -/

/-- Session extraction `if (parsed.session?.name) extractedSessionId = ...` — the guard is JS
truthiness, so an absent or empty name leaves the buffer untouched. -/
def updateSession (st : RState) (s : Snapshot) : RState :=
  match s.session.bind SessionPart.name with
  | some n => if n = [] then st else { st with extractedSessionId := extractSessionId n }
  | none => st

/-- The text-reconciliation section (vertex-ai.ts 536–577), acting on
`answerState` and `currentAnswerText = parsed.answer?.answerText || ""`. -/
def textStep (st : RState) (answerState : Option String) (t : List Char) :
    RState × List OutEvent :=
  if answerState = some "SUCCEEDED" ∧ t ≠ [] then
    if st.lastAnswerText.length < t.length then
      if st.lastAnswerText.isPrefixOf t then
        -- const delta = currentAnswerText.slice(lastAnswerText.length); if (delta) yield
        ({ st with lastAnswerText := t },
          if t.drop st.lastAnswerText.length ≠ [] then
            [OutEvent.chunk (t.drop st.lastAnswerText.length) false] else [])
      else
        ({ st with lastAnswerText := t }, [OutEvent.chunk t true])
    else (st, [])
  else if answerState = some "STREAMING" ∧ t ≠ [] then
    if st.lastAnswerText.length < t.length ∧ st.lastAnswerText.isPrefixOf t then
      ({ st with lastAnswerText := t },
        if t.drop st.lastAnswerText.length ≠ [] then
          [OutEvent.chunk (t.drop st.lastAnswerText.length) false] else [])
    else if st.lastAnswerText = [] ∧ t ≠ [] then
      ({ st with lastAnswerText := t }, [OutEvent.chunk t false])
    else (st, [])
  else (st, [])

/-- Guarded update `if (parsed.answer?.relatedQuestions && ...length > 0)` — a present but
empty array fails the length test and is ignored. -/
def updateRQ (st : RState) (s : Snapshot) : RState :=
  match s.answer.bind AnswerPart.relatedQuestions with
  | some qs => if qs.length > 0 then { st with relatedQuestions := qs } else st
  | none => st

/-- The per-reference conversion in the `for (const ref of ...)` loop:
an entry with neither `unstructuredDocumentInfo` nor `chunkInfo` pushes
nothing. -/
def convertRef (r : RawReference) : List OutReference :=
  match r.unstructuredDocumentInfo with
  | some u =>
    [{ title := u.title, uri := u.uri,
       content := (u.chunkContents.bind (fun l => l.get? 0)).bind ChunkContent.content }]
  | none =>
    match r.chunkInfo with
    | some ci =>
      [{ title := ci.documentMetadata.bind DocumentMetadata.title,
         uri := ci.documentMetadata.bind DocumentMetadata.uri,
         content := ci.content }]
    | none => []

/-- Guarded update `if (parsed.answer?.references && ...length > 0)`: rebuild `references`
from scratch (overwrite, not merge). -/
def updateRefs (st : RState) (s : Snapshot) : RState :=
  match s.answer.bind AnswerPart.references with
  | some rs =>
    if rs.length > 0 then { st with references := rs.flatMap convertRef } else st
  | none => st

/-- Processing of one successfully parsed snapshot, in source order:
session extraction, then the text reconciliation (the only part that
yields events), then the relatedQuestions and references buffering. -/
def stepSnap (st : RState) (s : Snapshot) : RState × List OutEvent :=
  let st1 := updateSession st s
  let r := textStep st1 (s.answer.bind AnswerPart.state)
    ((s.answer.bind AnswerPart.answerText).getD [])
  (updateRefs (updateRQ r.1 s) s, r.2)

/-- Final reconciler state after a list of snapshots. -/
def runState (st : RState) : List Snapshot → RState
  | [] => st
  | s :: rest => runState (stepSnap st s).1 rest

/-- All events yielded while processing a list of snapshots (the loop body
yields; metadata/done come after the loop). -/
def runEvents (st : RState) : List Snapshot → List OutEvent
  | [] => []
  | s :: rest => (stepSnap st s).2 ++ runEvents (stepSnap st s).1 rest

/-- The full generator on a stream whose decoded snapshots are `snaps`:
loop events, then `yield {type:"metadata", ...}`, then `yield {type:"done"}`
(vertex-ai.ts 631–638). -/
def runReconciler (snaps : List Snapshot) : List OutEvent :=
  runEvents initRState snaps ++
    [OutEvent.metadata (runState initRState snaps).extractedSessionId
      (runState initRState snaps).relatedQuestions
      (runState initRState snaps).references,
     OutEvent.done]

/-- An answer part carrying only the given state and text. -/
def mkAnswer (state : String) (t : List Char) : AnswerPart :=
  { state := some state, answerText := some t,
    relatedQuestions := none, references := none }

/-- A STREAMING snapshot carrying only text. -/
def streamingSnap (t : List Char) : Snapshot :=
  { answer := some (mkAnswer "STREAMING" t), session := none }

/-- A SUCCEEDED snapshot carrying only text. -/
def succeededSnap (t : List Char) : Snapshot :=
  { answer := some (mkAnswer "SUCCEEDED" t), session := none }

/-- Reads `parsed.answer?.state`. -/
def stateOf (s : Snapshot) : Option String := s.answer.bind AnswerPart.state

/-- Reads `parsed.answer?.answerText || ""`. -/
def textOf (s : Snapshot) : List Char := (s.answer.bind AnswerPart.answerText).getD []

/-! ## Consumer-side rendering and the prefix-invariant checker (spec §8)

`renderEvents` is the consumer of §6: a non-replace chunk appends, a
replace chunk substitutes its text wholesale. -/

def renderEvents (acc : List Char) : List OutEvent → List Char
  | [] => acc
  | OutEvent.chunk c true :: rest => renderEvents c rest
  | OutEvent.chunk c false :: rest => renderEvents (acc ++ c) rest
  | OutEvent.metadata _ _ _ :: rest => renderEvents acc rest
  | OutEvent.done :: rest => renderEvents acc rest

/-- Check that every non-replace chunk in `evs`, rendered on top of the
running accumulator, reproduces exactly the producing snapshot's
`answerText` `t`. -/
def chunksOk (t : List Char) : List Char → List OutEvent → Bool
  | _, [] => true
  | acc, OutEvent.chunk c false :: rest =>
      ((acc ++ c) == t) && chunksOk t (acc ++ c) rest
  | _, OutEvent.chunk c true :: rest => chunksOk t c rest
  | acc, _ :: rest => chunksOk t acc rest

/-- The run paired with the snapshot that produced each event batch. -/
def runPairs (st : RState) : List Snapshot → List (Snapshot × List OutEvent)
  | [] => []
  | s :: rest => (s, (stepSnap st s).2) :: runPairs (stepSnap st s).1 rest

/-- Prefix invariant of spec §8 over a whole paired run. -/
def prefixInvHolds (acc : List Char) : List (Snapshot × List OutEvent) → Bool
  | [] => true
  | (s, evs) :: rest =>
      chunksOk (textOf s) acc evs && prefixInvHolds (renderEvents acc evs) rest

/-! ## Spec-side buffering folds (spec §4.2: "last non-empty value wins") -/

/-- Spec wording: `relatedQuestions` arriving non-empty on a snapshot
overwrite the previous value. -/
def specRQStep (acc : List String) (s : Snapshot) : List String :=
  match s.answer.bind AnswerPart.relatedQuestions with
  | some qs => if qs ≠ [] then qs else acc
  | none => acc

/-- Spec wording: `references` arriving non-empty overwrite (converted to
the output record shape). -/
def specRefsStep (acc : List OutReference) (s : Snapshot) : List OutReference :=
  match s.answer.bind AnswerPart.references with
  | some rs => if rs ≠ [] then rs.flatMap convertRef else acc
  | none => acc

/-- Spec wording: a session identifier seen on any snapshot (a truthy
`session.name`) overwrites the buffered value. -/
def specSidStep (acc : Option (List Char)) (s : Snapshot) : Option (List Char) :=
  match s.session.bind SessionPart.name with
  | some n => if n ≠ [] then extractSessionId n else acc
  | none => acc

/-- Does the name contain an occurrence of `"/sessions/"` with a non-empty
identifier after it? (Used to state claim C10.) -/
def hasSessionsId : List Char → Bool
  | [] => false
  | c :: cs =>
      (sessionsSep.isPrefixOf (c :: cs) && !((c :: cs).drop sessionsSep.length).isEmpty)
        || hasSessionsId cs

/-! ## Full pipeline with an explicit JSON parse (vertex-ai.ts 523–618)

`JSON.parse` plus the `as VertexAnswerResponse` shape is abstracted as a
`parse` function; the `catch` branch — a parse failure — skips the object
and continues. -/

def stepObj (parse : List Char → Option Snapshot) (st : RState) (o : List Char) :
    RState × List OutEvent :=
  match parse o with
  | none => (st, [])
  | some s => stepSnap st s

/-- Process the complete-object strings extracted from one buffer scan. -/
def runObjs (parse : List Char → Option Snapshot) (st : RState) :
    List (List Char) → RState × List OutEvent
  | [] => (st, [])
  | o :: rest =>
    let r := stepObj parse st o
    let q := runObjs parse r.1 rest
    (q.1, r.2 ++ q.2)

/-- The reader loop over received chunks: append to the buffer, rescan,
process every extracted object. Returns final state, final buffer, and the
events yielded inside the loop. -/
def runPipe (parse : List Char → Option Snapshot) (st : RState) (buf : List Char) :
    List (List Char) → RState × List Char × List OutEvent
  | [] => (st, buf, [])
  | ch :: rest =>
    let r := processBuffer (buf ++ ch)
    let o := runObjs parse st r.1
    let q := runPipe parse o.1 r.2 rest
    (q.1, q.2.1, o.2 ++ q.2.2)

/-! ## Concrete instances used by the claims' example scenarios -/

/-- Third snapshot of the spec's happy-path example: SUCCEEDED text plus
related questions. -/
def c6Snap3 : Snapshot :=
  { answer := some { mkAnswer "SUCCEEDED" "Hello world.".data with relatedQuestions := some ["What next?"] },
    session := none }

/-- Reconciler state mid-stream after emitting "Draft answer". -/
def stDraft : RState :=
  { lastAnswerText := "Draft answer".data, extractedSessionId := none,
    relatedQuestions := [], references := [] }

/-- Reconciler state mid-stream after emitting "Hello". -/
def stHello : RState :=
  { lastAnswerText := "Hello".data, extractedSessionId := none,
    relatedQuestions := [], references := [] }

/-- Reconciler state holding a previously extracted valid session id. -/
def stWithSid : RState :=
  { lastAnswerText := [], extractedSessionId := some "12345".data,
    relatedQuestions := [], references := [] }

/-- A snapshot whose `session.name` is truthy but malformed (no
`/sessions/<id>` part). -/
def snapBadName : Snapshot :=
  { answer := none, session := some { name := some "projects/p/engines/e".data } }

/-- A parse function that fails on every object (for the C7 witness). -/
def parseNone : List Char → Option Snapshot := fun _ => none

/-- The split-bytes example text of spec §8. -/
def splitExText : List Char := "\x7b\"state\":\"SUCCEEDED\",\"answerText\":\"Hi\"\x7d".data

/-- Its two delivery chunks, split mid-object after `{"state":"SUCC`. -/
def splitExChunk1 : List Char := "\x7b\"state\":\"SUCC".data

def splitExChunk2 : List Char := "EEDED\",\"answerText\":\"Hi\"\x7d".data

/-- The string-literal-brace example of spec §8. -/
def braceExText : List Char := "\x7b\"answerText\":\"a \x7d inside\"\x7d".data

/-- The escaped-quote example of spec §8. -/
def escExText : List Char := "\x7b\"answerText\":\"she said \\\"hi\\\"\"\x7d".data

/-- Scanner invariant: the in-progress object accumulator is never longer
than the retained text. -/
def ScanInv (st : ScanState) : Prop :=
  st.objAcc.length ≤ st.pending.length

/-- A scan state in the middle of a string literal (for witnesses). -/
def stInString : ScanState :=
  { braceCount := 1, inString := true, escapeNext := false,
    objActive := true, objAcc := "\x7b\"a".data, pending := "\x7b\"a".data }

/-! ## Helper lemmas: frame facts about the buffering updates -/

/-- Bridge between the boolean prefix test and the prefix relation. -/
theorem prefixBool_iff (l1 l2 : List Char) : l1.isPrefixOf l2 = true ↔ l1 <+: l2 :=
  List.isPrefixOf_iff_prefix

theorem updateSession_keeps (st : RState) (s : Snapshot) :
    (updateSession st s).lastAnswerText = st.lastAnswerText ∧
    (updateSession st s).relatedQuestions = st.relatedQuestions ∧
    (updateSession st s).references = st.references := by
  unfold updateSession
  cases s.session.bind SessionPart.name with
  | none => exact ⟨rfl, rfl, rfl⟩
  | some n => by_cases h : n = [] <;> simp [h]

theorem updateRQ_keeps (st : RState) (s : Snapshot) :
    (updateRQ st s).lastAnswerText = st.lastAnswerText ∧
    (updateRQ st s).extractedSessionId = st.extractedSessionId ∧
    (updateRQ st s).references = st.references := by
  unfold updateRQ
  cases s.answer.bind AnswerPart.relatedQuestions with
  | none => exact ⟨rfl, rfl, rfl⟩
  | some qs => by_cases h : qs.length > 0 <;> simp [h]

theorem updateRefs_keeps (st : RState) (s : Snapshot) :
    (updateRefs st s).lastAnswerText = st.lastAnswerText ∧
    (updateRefs st s).extractedSessionId = st.extractedSessionId ∧
    (updateRefs st s).relatedQuestions = st.relatedQuestions := by
  unfold updateRefs
  cases s.answer.bind AnswerPart.references with
  | none => exact ⟨rfl, rfl, rfl⟩
  | some rs => by_cases h : rs.length > 0 <;> simp [h]

theorem stepSnap_eq (st : RState) (s : Snapshot) :
    stepSnap st s =
      (updateRefs (updateRQ (textStep (updateSession st s) (stateOf s) (textOf s)).1 s) s,
       (textStep (updateSession st s) (stateOf s) (textOf s)).2) := rfl

/-- Case analysis of the text-reconciliation section: it is a no-op, emits
one delta chunk extending `lastAnswerText` to exactly `t`, or emits one
replace chunk carrying the whole (strictly longer, non-extending) `t`. -/
theorem textStep_cases (st : RState) (a : Option String) (t : List Char) :
    textStep st a t = (st, []) ∨
    (∃ c, c ≠ [] ∧ st.lastAnswerText ++ c = t ∧
      textStep st a t = ({ st with lastAnswerText := t }, [OutEvent.chunk c false])) ∨
    (st.lastAnswerText.length < t.length ∧ ¬ st.lastAnswerText <+: t ∧ t ≠ [] ∧
      textStep st a t = ({ st with lastAnswerText := t }, [OutEvent.chunk t true])) := by
  unfold textStep
  by_cases hS : a = some "SUCCEEDED" ∧ t ≠ []
  · rw [if_pos hS]
    by_cases hlen : st.lastAnswerText.length < t.length
    · rw [if_pos hlen]
      by_cases hpre : st.lastAnswerText.isPrefixOf t = true
      · rw [if_pos hpre]
        have hp : st.lastAnswerText <+: t := (prefixBool_iff _ _).mp hpre
        have happ : st.lastAnswerText ++ t.drop st.lastAnswerText.length = t :=
          List.prefix_iff_eq_append.mp hp
        have hne : t.drop st.lastAnswerText.length ≠ [] := by
          intro h0
          have hl := List.length_drop st.lastAnswerText.length t
          rw [h0] at hl
          simp only [List.length_nil] at hl
          omega
        rw [if_pos hne]
        exact Or.inr (Or.inl ⟨t.drop st.lastAnswerText.length, hne, happ, rfl⟩)
      · rw [if_neg hpre]
        exact Or.inr (Or.inr ⟨hlen,
          fun hc => hpre ((prefixBool_iff _ _).mpr hc), hS.2, rfl⟩)
    · rw [if_neg hlen]
      exact Or.inl rfl
  · rw [if_neg hS]
    by_cases hT : a = some "STREAMING" ∧ t ≠ []
    · rw [if_pos hT]
      by_cases hc1 : st.lastAnswerText.length < t.length ∧ st.lastAnswerText.isPrefixOf t = true
      · rw [if_pos hc1]
        have hp : st.lastAnswerText <+: t := (prefixBool_iff _ _).mp hc1.2
        have happ : st.lastAnswerText ++ t.drop st.lastAnswerText.length = t :=
          List.prefix_iff_eq_append.mp hp
        have hne : t.drop st.lastAnswerText.length ≠ [] := by
          intro h0
          have hl := List.length_drop st.lastAnswerText.length t
          rw [h0] at hl
          simp only [List.length_nil] at hl
          omega
        rw [if_pos hne]
        exact Or.inr (Or.inl ⟨t.drop st.lastAnswerText.length, hne, happ, rfl⟩)
      · rw [if_neg hc1]
        by_cases hc2 : st.lastAnswerText = [] ∧ t ≠ []
        · rw [if_pos hc2]
          refine Or.inr (Or.inl ⟨t, hc2.2, ?_, rfl⟩)
          rw [hc2.1, List.nil_append]
        · rw [if_neg hc2]
          exact Or.inl rfl
    · rw [if_neg hT]
      exact Or.inl rfl

/-- The same case analysis lifted to a full snapshot step: the buffering
updates never touch `lastAnswerText` and never yield. -/
theorem stepSnap_cases (st : RState) (s : Snapshot) :
    ((stepSnap st s).2 = [] ∧ (stepSnap st s).1.lastAnswerText = st.lastAnswerText) ∨
    (∃ c, c ≠ [] ∧ st.lastAnswerText ++ c = textOf s ∧
      (stepSnap st s).2 = [OutEvent.chunk c false] ∧
      (stepSnap st s).1.lastAnswerText = textOf s) ∨
    (st.lastAnswerText.length < (textOf s).length ∧ ¬ st.lastAnswerText <+: textOf s ∧
      textOf s ≠ [] ∧
      (stepSnap st s).2 = [OutEvent.chunk (textOf s) true] ∧
      (stepSnap st s).1.lastAnswerText = textOf s) := by
  have hu := updateSession_keeps st s
  rcases textStep_cases (updateSession st s) (stateOf s) (textOf s) with
    h | ⟨c, hc, happ, h⟩ | ⟨h1, h2, h3, h⟩
  · left
    rw [stepSnap_eq, h]
    exact ⟨rfl, by simp only [(updateRefs_keeps _ s).1, (updateRQ_keeps _ s).1, hu.1]⟩
  · right; left
    rw [hu.1] at happ
    refine ⟨c, hc, happ, ?_, ?_⟩
    · rw [stepSnap_eq, h]
    · rw [stepSnap_eq, h]
      simp only [(updateRefs_keeps _ s).1, (updateRQ_keeps _ s).1]
  · right; right
    rw [hu.1] at h1 h2
    refine ⟨h1, h2, h3, ?_, ?_⟩
    · rw [stepSnap_eq, h]
    · rw [stepSnap_eq, h]
      simp only [(updateRefs_keeps _ s).1, (updateRQ_keeps _ s).1]

theorem updateSession_noop (st : RState) (s : Snapshot)
    (h : s.session.bind SessionPart.name = none ∨ s.session.bind SessionPart.name = some []) :
    updateSession st s = st := by
  unfold updateSession
  rcases h with h | h <;> rw [h] <;> simp

theorem updateRQ_noop (st : RState) (s : Snapshot)
    (h : s.answer.bind AnswerPart.relatedQuestions = none ∨
         s.answer.bind AnswerPart.relatedQuestions = some []) :
    updateRQ st s = st := by
  unfold updateRQ
  rcases h with h | h <;> rw [h] <;> simp

theorem updateRefs_noop (st : RState) (s : Snapshot)
    (h : s.answer.bind AnswerPart.references = none ∨
         s.answer.bind AnswerPart.references = some []) :
    updateRefs st s = st := by
  unfold updateRefs
  rcases h with h | h <;> rw [h] <;> simp

/-- Each snapshot either leaves `lastAnswerText` unchanged or strictly
lengthens it. -/
theorem stepSnap_last_or (st : RState) (s : Snapshot) :
    (stepSnap st s).1.lastAnswerText = st.lastAnswerText ∨
    st.lastAnswerText.length < (stepSnap st s).1.lastAnswerText.length := by
  rcases stepSnap_cases st s with ⟨_, hl⟩ | ⟨c, hc, happ, _, hl⟩ | ⟨h1, _, _, _, hl⟩
  · exact Or.inl hl
  · right
    rw [hl, ← happ, List.length_append]
    have := List.length_pos.mpr hc
    omega
  · right
    rw [hl]
    exact h1

/-- Over a whole run `lastAnswerText` never shrinks. -/
theorem runState_last_mono (snaps : List Snapshot) :
    ∀ st : RState,
      st.lastAnswerText.length ≤ (runState st snaps).lastAnswerText.length := by
  induction snaps with
  | nil => intro st; exact le_refl _
  | cons s rest ih =>
    intro st
    have h1 : st.lastAnswerText.length ≤ (stepSnap st s).1.lastAnswerText.length := by
      rcases stepSnap_last_or st s with h | h
      · rw [h]
      · exact le_of_lt h
    exact le_trans h1 (ih (stepSnap st s).1)

/-- The loop body only ever yields chunk events. -/
theorem stepSnap_events_chunk (st : RState) (s : Snapshot) :
    ∀ e ∈ (stepSnap st s).2, ∃ c b, e = OutEvent.chunk c b := by
  rcases stepSnap_cases st s with ⟨he, -⟩ | ⟨c, -, -, he, -⟩ | ⟨-, -, -, he, -⟩ <;>
    rw [he] <;> intro e hme
  · exact absurd hme (List.not_mem_nil e)
  · exact ⟨c, false, List.mem_singleton.mp hme⟩
  · exact ⟨textOf s, true, List.mem_singleton.mp hme⟩

/-! ## The claims -/

/-- C6: the happy-path example — snapshots STREAMING "Hello", STREAMING
"Hello wor", SUCCEEDED "Hello world." with relatedQuestions ["What next?"]
yield exactly Chunk("Hello", false), Chunk(" wor", false),
Chunk("ld.", false), Metadata(relatedQuestions = ["What next?"]), Done. -/
theorem claim_C6 :
    runReconciler [streamingSnap "Hello".data, streamingSnap "Hello wor".data, c6Snap3] =
      [OutEvent.chunk "Hello".data false,
       OutEvent.chunk " wor".data false,
       OutEvent.chunk "ld.".data false,
       OutEvent.metadata none ["What next?"] [],
       OutEvent.done] := by decide

/-- C1 counterexample: on the claim's own two-snapshot input — STREAMING
"Draft answer" then SUCCEEDED "Final answer" (equal lengths) — the code's
`currentAnswerText.length > lastAnswerText.length` guard fails, so no
replace chunk is emitted at all: the output is Chunk("Draft answer", false),
Metadata({}), Done, and Chunk("Final answer", true) never appears. -/
theorem claim_C1_cex :
    runReconciler [streamingSnap "Draft answer".data, succeededSnap "Final answer".data] =
      [OutEvent.chunk "Draft answer".data false,
       OutEvent.metadata none [] [],
       OutEvent.done] ∧
    OutEvent.chunk "Final answer".data true ∉
      runReconciler [streamingSnap "Draft answer".data, succeededSnap "Final answer".data] := by
  decide

/-- C1 (amended): for a SUCCEEDED snapshot with non-empty `answerText`, if
`answerText` is strictly longer than `lastEmittedText` but does not have it
as a prefix, exactly one replace chunk carrying the full `answerText` is
emitted and `lastEmittedText` is updated to it; a SUCCEEDED `answerText`
not longer than `lastEmittedText` emits nothing and leaves
`lastEmittedText` unchanged. -/
theorem claim_C1 (st : RState) (s : Snapshot)
    (hstate : stateOf s = some "SUCCEEDED") (hne : textOf s ≠ []) :
    (st.lastAnswerText.length < (textOf s).length → ¬ st.lastAnswerText <+: textOf s →
      (stepSnap st s).2 = [OutEvent.chunk (textOf s) true] ∧
      (stepSnap st s).1.lastAnswerText = textOf s) ∧
    ((textOf s).length ≤ st.lastAnswerText.length →
      (stepSnap st s).2 = [] ∧ (stepSnap st s).1.lastAnswerText = st.lastAnswerText) := by
  have hu := (updateSession_keeps st s).1
  constructor
  · intro hlen hnpre
    have hTS : textStep (updateSession st s) (stateOf s) (textOf s) =
        ({ updateSession st s with lastAnswerText := textOf s },
         [OutEvent.chunk (textOf s) true]) := by
      unfold textStep
      rw [if_pos ⟨hstate, hne⟩]
      rw [hu, if_pos hlen]
      have hb : ¬ st.lastAnswerText.isPrefixOf (textOf s) = true :=
        fun hx => hnpre ((prefixBool_iff _ _).mp hx)
      rw [if_neg hb]
    rw [stepSnap_eq, hTS]
    exact ⟨rfl, by simp only [(updateRefs_keeps _ s).1, (updateRQ_keeps _ s).1]⟩
  · intro hlen
    have hTS : textStep (updateSession st s) (stateOf s) (textOf s) =
        (updateSession st s, []) := by
      unfold textStep
      rw [if_pos ⟨hstate, hne⟩]
      rw [hu, if_neg (not_lt.mpr hlen)]
    rw [stepSnap_eq, hTS]
    exact ⟨rfl, by simp only [(updateRefs_keeps _ s).1, (updateRQ_keeps _ s).1, hu]⟩

theorem claim_C1_witness :
    stDraft.lastAnswerText.length < (textOf (succeededSnap "Final answer!!".data)).length ∧
    (stepSnap stDraft (succeededSnap "Final answer!!".data)).2 =
      [OutEvent.chunk "Final answer!!".data true] ∧
    (stepSnap stDraft (succeededSnap "Final answer!!".data)).1.lastAnswerText =
      "Final answer!!".data :=
  ⟨by decide,
   ((claim_C1 stDraft (succeededSnap "Final answer!!".data) (by decide) (by decide)).1
      (by decide) (by decide)).1,
   ((claim_C1 stDraft (succeededSnap "Final answer!!".data) (by decide) (by decide)).1
      (by decide) (by decide)).2⟩

/-- C8: a STREAMING snapshot whose non-empty `answerText` does not
prefix-extend a non-empty `lastEmittedText` emits no event and leaves
`lastAnswerText` unchanged; if it also carries no truthy session name, no
relatedQuestions and no references, the whole reconciler state is exactly
as before. -/
theorem claim_C8 (st : RState) (s : Snapshot)
    (hstate : stateOf s = some "STREAMING") (ht : textOf s ≠ [])
    (hlast : st.lastAnswerText ≠ [])
    (hnotext : ¬ (st.lastAnswerText <+: textOf s ∧ st.lastAnswerText.length < (textOf s).length)) :
    (stepSnap st s).2 = [] ∧
    (stepSnap st s).1.lastAnswerText = st.lastAnswerText ∧
    ((s.session.bind SessionPart.name = none ∨ s.session.bind SessionPart.name = some []) →
     (s.answer.bind AnswerPart.relatedQuestions = none ∨
       s.answer.bind AnswerPart.relatedQuestions = some []) →
     (s.answer.bind AnswerPart.references = none ∨
       s.answer.bind AnswerPart.references = some []) →
     (stepSnap st s).1 = st) := by
  have hu := (updateSession_keeps st s).1
  have hS : ¬ (stateOf s = some "SUCCEEDED" ∧ textOf s ≠ []) := by
    rintro ⟨h, -⟩
    rw [hstate] at h
    exact absurd h (by decide)
  have hTS : textStep (updateSession st s) (stateOf s) (textOf s) =
      (updateSession st s, []) := by
    unfold textStep
    rw [if_neg hS, if_pos ⟨hstate, ht⟩]
    have hc1 : ¬ ((updateSession st s).lastAnswerText.length < (textOf s).length ∧
        (updateSession st s).lastAnswerText.isPrefixOf (textOf s) = true) := by
      rw [hu]
      rintro ⟨h1, h2⟩
      exact hnotext ⟨(prefixBool_iff _ _).mp h2, h1⟩
    rw [if_neg hc1]
    have hc2 : ¬ ((updateSession st s).lastAnswerText = [] ∧ textOf s ≠ []) := by
      rw [hu]
      rintro ⟨h1, -⟩
      exact hlast h1
    rw [if_neg hc2]
  refine ⟨?_, ?_, ?_⟩
  · rw [stepSnap_eq, hTS]
  · rw [stepSnap_eq, hTS]
    simp only [(updateRefs_keeps _ s).1, (updateRQ_keeps _ s).1, hu]
  · intro hsess hrq hrefs
    rw [stepSnap_eq, hTS]
    simp only [updateSession_noop st s hsess]
    rw [updateRQ_noop st s hrq, updateRefs_noop st s hrefs]

theorem claim_C8_witness :
    (stepSnap stHello (streamingSnap "Hell".data)).2 = [] ∧
    (stepSnap stHello (streamingSnap "Hell".data)).1 = stHello :=
  ⟨(claim_C8 stHello (streamingSnap "Hell".data) (by decide) (by decide) (by decide)
      (by decide)).1,
   (claim_C8 stHello (streamingSnap "Hell".data) (by decide) (by decide) (by decide)
      (by decide)).2.2 (Or.inl (by decide)) (Or.inl (by decide)) (Or.inl (by decide))⟩

/-- C9 (implicit): every chunk yielded carries non-empty content; each
snapshot leaves `lastAnswerText` unchanged or strictly longer; a replace
chunk only occurs with text strictly longer than `lastAnswerText`; hence
over a whole run `lastAnswerText` never shrinks. -/
theorem claim_C9 (st : RState) (s : Snapshot) :
    (∀ c b, OutEvent.chunk c b ∈ (stepSnap st s).2 → c ≠ []) ∧
    ((stepSnap st s).1.lastAnswerText = st.lastAnswerText ∨
      st.lastAnswerText.length < (stepSnap st s).1.lastAnswerText.length) ∧
    (∀ c, OutEvent.chunk c true ∈ (stepSnap st s).2 →
      st.lastAnswerText.length < c.length) ∧
    (∀ snaps : List Snapshot,
      st.lastAnswerText.length ≤ (runState st snaps).lastAnswerText.length) := by
  refine ⟨?_, stepSnap_last_or st s, ?_, fun snaps => runState_last_mono snaps st⟩
  · intro c b hm
    rcases stepSnap_cases st s with ⟨he, -⟩ | ⟨d, hd, -, he, -⟩ | ⟨-, -, h3, he, -⟩ <;>
      rw [he] at hm
    · exact absurd hm (List.not_mem_nil _)
    · have := List.mem_singleton.mp hm
      injection this with h1 h2
      rw [h1]
      exact hd
    · have := List.mem_singleton.mp hm
      injection this with h1 h2
      rw [h1]
      exact h3
  · intro c hm
    rcases stepSnap_cases st s with ⟨he, -⟩ | ⟨d, -, -, he, -⟩ | ⟨h1, -, -, he, -⟩ <;>
      rw [he] at hm
    · exact absurd hm (List.not_mem_nil _)
    · have := List.mem_singleton.mp hm
      injection this with hc hb
      exact absurd hb.symm Bool.false_ne_true
    · have := List.mem_singleton.mp hm
      injection this with hc hb
      rw [hc]
      exact h1

theorem claim_C9_witness :
    "Hi".data ≠ ([] : List Char) ∧
    (0 : Nat) ≤ (runState initRState [streamingSnap "Hi".data]).lastAnswerText.length :=
  ⟨(claim_C9 initRState (streamingSnap "Hi".data)).1 "Hi".data false (by decide),
   (claim_C9 initRState (streamingSnap "Hi".data)).2.2.2 [streamingSnap "Hi".data]⟩

theorem textStep_keeps (st : RState) (a : Option String) (t : List Char) :
    (textStep st a t).1.extractedSessionId = st.extractedSessionId ∧
    (textStep st a t).1.relatedQuestions = st.relatedQuestions ∧
    (textStep st a t).1.references = st.references := by
  rcases textStep_cases st a t with h | ⟨c, -, -, h⟩ | ⟨-, -, -, h⟩ <;> rw [h] <;>
    exact ⟨rfl, rfl, rfl⟩

theorem stepSnap_rq (st : RState) (s : Snapshot) :
    (stepSnap st s).1.relatedQuestions = specRQStep st.relatedQuestions s := by
  rw [stepSnap_eq]
  show (updateRefs (updateRQ _ s) s).relatedQuestions = _
  rw [(updateRefs_keeps _ s).2.2]
  have hY : (textStep (updateSession st s) (stateOf s) (textOf s)).1.relatedQuestions =
      st.relatedQuestions := by
    rw [(textStep_keeps _ _ _).2.1, (updateSession_keeps st s).2.1]
  unfold updateRQ specRQStep
  cases s.answer.bind AnswerPart.relatedQuestions with
  | none => exact hY
  | some qs =>
    by_cases h : qs = []
    · subst h
      simp [hY]
    · have hp : qs.length > 0 := List.length_pos.mpr h
      simp [hp, h]

theorem stepSnap_refs (st : RState) (s : Snapshot) :
    (stepSnap st s).1.references = specRefsStep st.references s := by
  rw [stepSnap_eq]
  show (updateRefs (updateRQ _ s) s).references = _
  have hY : (updateRQ (textStep (updateSession st s) (stateOf s) (textOf s)).1 s).references =
      st.references := by
    rw [(updateRQ_keeps _ s).2.2, (textStep_keeps _ _ _).2.2,
      (updateSession_keeps st s).2.2]
  unfold updateRefs specRefsStep
  cases s.answer.bind AnswerPart.references with
  | none => exact hY
  | some rs =>
    by_cases h : rs = []
    · subst h
      simp [hY]
    · have hp : rs.length > 0 := List.length_pos.mpr h
      simp [hp, h]

theorem stepSnap_sid (st : RState) (s : Snapshot) :
    (stepSnap st s).1.extractedSessionId = specSidStep st.extractedSessionId s := by
  rw [stepSnap_eq]
  show (updateRefs (updateRQ _ s) s).extractedSessionId = _
  rw [(updateRefs_keeps _ s).2.1, (updateRQ_keeps _ s).2.1, (textStep_keeps _ _ _).1]
  unfold updateSession specSidStep
  cases s.session.bind SessionPart.name with
  | none => rfl
  | some n => by_cases h : n = [] <;> simp [h]

theorem runState_rq (snaps : List Snapshot) :
    ∀ st : RState,
      (runState st snaps).relatedQuestions = snaps.foldl specRQStep st.relatedQuestions := by
  induction snaps with
  | nil => intro st; rfl
  | cons s rest ih =>
    intro st
    show (runState (stepSnap st s).1 rest).relatedQuestions = _
    rw [ih, stepSnap_rq]
    rfl

theorem runState_refs (snaps : List Snapshot) :
    ∀ st : RState,
      (runState st snaps).references = snaps.foldl specRefsStep st.references := by
  induction snaps with
  | nil => intro st; rfl
  | cons s rest ih =>
    intro st
    show (runState (stepSnap st s).1 rest).references = _
    rw [ih, stepSnap_refs]
    rfl

theorem runState_sid (snaps : List Snapshot) :
    ∀ st : RState,
      (runState st snaps).extractedSessionId =
        snaps.foldl specSidStep st.extractedSessionId := by
  induction snaps with
  | nil => intro st; rfl
  | cons s rest ih =>
    intro st
    show (runState (stepSnap st s).1 rest).extractedSessionId = _
    rw [ih, stepSnap_sid]
    rfl

theorem runEvents_chunks (snaps : List Snapshot) :
    ∀ st : RState, ∀ e ∈ runEvents st snaps, ∃ c b, e = OutEvent.chunk c b := by
  induction snaps with
  | nil => intro st e he; exact absurd he (List.not_mem_nil e)
  | cons s rest ih =>
    intro st e he
    rw [show runEvents st (s :: rest) =
      (stepSnap st s).2 ++ runEvents (stepSnap st s).1 rest from rfl] at he
    rcases List.mem_append.mp he with h | h
    · exact stepSnap_events_chunk st s e h
    · exact ih (stepSnap st s).1 e h

/-- C5: events come in strict order — zero or more chunks, then exactly one
metadata, then exactly one done — and the metadata fields are the
last-non-empty-wins folds of the snapshots' relatedQuestions, references
and (truthy) session names, none emitted before stream end. -/
theorem claim_C5 (snaps : List Snapshot) :
    (∀ e ∈ runEvents initRState snaps, ∃ c b, e = OutEvent.chunk c b) ∧
    runReconciler snaps =
      runEvents initRState snaps ++
        [OutEvent.metadata (snaps.foldl specSidStep none)
           (snaps.foldl specRQStep [])
           (snaps.foldl specRefsStep []),
         OutEvent.done] := by
  refine ⟨runEvents_chunks snaps initRState, ?_⟩
  unfold runReconciler
  rw [runState_sid, runState_rq, runState_refs]
  rfl

theorem claim_C5_witness :
    (∃ c b, OutEvent.chunk "Hi".data false = OutEvent.chunk c b) ∧
    runReconciler [streamingSnap "Hi".data] =
      runEvents initRState [streamingSnap "Hi".data] ++
        [OutEvent.metadata ([streamingSnap "Hi".data].foldl specSidStep none)
           ([streamingSnap "Hi".data].foldl specRQStep [])
           ([streamingSnap "Hi".data].foldl specRefsStep []),
         OutEvent.done] :=
  ⟨(claim_C5 [streamingSnap "Hi".data]).1 (OutEvent.chunk "Hi".data false) (by decide),
   (claim_C5 [streamingSnap "Hi".data]).2⟩

theorem renderEvents_append (l1 l2 : List OutEvent) :
    ∀ acc : List Char,
      renderEvents acc (l1 ++ l2) = renderEvents (renderEvents acc l1) l2 := by
  induction l1 with
  | nil => intro acc; rfl
  | cons e rest ih =>
    intro acc
    cases e with
    | chunk c b => cases b <;> simp [renderEvents, ih]
    | metadata a q r => simp [renderEvents, ih]
    | done => simp [renderEvents, ih]

theorem prefixInv_general (snaps : List Snapshot) :
    ∀ (st : RState) (acc : List Char), acc = st.lastAnswerText →
      prefixInvHolds acc (runPairs st snaps) = true ∧
      renderEvents acc (runEvents st snaps) = (runState st snaps).lastAnswerText := by
  induction snaps with
  | nil =>
    intro st acc h
    exact ⟨rfl, h⟩
  | cons s rest ih =>
    intro st acc hacc
    rcases stepSnap_cases st s with ⟨he, hl⟩ | ⟨c, hc, happ, he, hl⟩ | ⟨h1, h2, h3, he, hl⟩
    · have hrest := ih (stepSnap st s).1 acc (by rw [hacc, ← hl])
      constructor
      · show (chunksOk (textOf s) acc (stepSnap st s).2 &&
          prefixInvHolds (renderEvents acc (stepSnap st s).2)
            (runPairs (stepSnap st s).1 rest)) = true
        rw [he]
        show (chunksOk (textOf s) acc [] &&
          prefixInvHolds (renderEvents acc []) (runPairs (stepSnap st s).1 rest)) = true
        simpa [chunksOk, renderEvents] using hrest.1
      · show renderEvents acc ((stepSnap st s).2 ++ runEvents (stepSnap st s).1 rest) =
          (runState (stepSnap st s).1 rest).lastAnswerText
        rw [he, List.nil_append]
        exact hrest.2
    · have hrest := ih (stepSnap st s).1 (acc ++ c) (by rw [hacc, hl]; exact happ)
      constructor
      · show (chunksOk (textOf s) acc (stepSnap st s).2 &&
          prefixInvHolds (renderEvents acc (stepSnap st s).2)
            (runPairs (stepSnap st s).1 rest)) = true
        rw [he]
        show ((((acc ++ c) == textOf s) && chunksOk (textOf s) (acc ++ c) []) &&
          prefixInvHolds (renderEvents (acc ++ c) [])
            (runPairs (stepSnap st s).1 rest)) = true
        have hbeq : ((acc ++ c) == textOf s) = true := by
          rw [beq_iff_eq, hacc]
          exact happ
        simpa [chunksOk, renderEvents, hbeq] using hrest.1
      · show renderEvents acc ((stepSnap st s).2 ++ runEvents (stepSnap st s).1 rest) =
          (runState (stepSnap st s).1 rest).lastAnswerText
        rw [he, renderEvents_append]
        show renderEvents (renderEvents (acc ++ c) [])
          (runEvents (stepSnap st s).1 rest) = _
        exact hrest.2
    · have hrest := ih (stepSnap st s).1 (textOf s) (by rw [← hl])
      constructor
      · show (chunksOk (textOf s) acc (stepSnap st s).2 &&
          prefixInvHolds (renderEvents acc (stepSnap st s).2)
            (runPairs (stepSnap st s).1 rest)) = true
        rw [he]
        show (chunksOk (textOf s) (textOf s) [] &&
          prefixInvHolds (renderEvents acc [OutEvent.chunk (textOf s) true])
            (runPairs (stepSnap st s).1 rest)) = true
        simpa [chunksOk, renderEvents] using hrest.1
      · show renderEvents acc ((stepSnap st s).2 ++ runEvents (stepSnap st s).1 rest) =
          (runState (stepSnap st s).1 rest).lastAnswerText
        rw [he, renderEvents_append]
        exact hrest.2

/-- C2: the prefix invariant — for every non-replace chunk, the
consumer-rendered text before it concatenated with the chunk equals the
producing snapshot's answerText (a replace chunk resets and seeds the
accumulator) — holds for every run, and `lastAnswerText` always equals
exactly the text the consumer has rendered. -/
theorem claim_C2 (snaps : List Snapshot) :
    prefixInvHolds [] (runPairs initRState snaps) = true ∧
    renderEvents [] (runEvents initRState snaps) =
      (runState initRState snaps).lastAnswerText :=
  prefixInv_general snaps initRState [] rfl

theorem runState_append (l1 l2 : List Snapshot) :
    ∀ st : RState, runState st (l1 ++ l2) = runState (runState st l1) l2 := by
  induction l1 with
  | nil => intro st; rfl
  | cons s rest ih => intro st; exact ih (stepSnap st s).1

/-- If a name has no `/sessions/` occurrence with anything after it, the
first-occurrence search either fails or returns an empty tail. -/
theorem noSessionsId_findSep (s : List Char) :
    hasSessionsId s = false →
      ∀ b a, findSep sessionsSep s = some (b, a) → a = [] := by
  induction s with
  | nil =>
    intro _ b a hf
    rw [show findSep sessionsSep [] = none from by decide] at hf
    exact absurd hf (by simp)
  | cons c cs ih =>
    intro h b a hf
    rw [show hasSessionsId (c :: cs) =
      ((sessionsSep.isPrefixOf (c :: cs) && !((c :: cs).drop sessionsSep.length).isEmpty)
        || hasSessionsId cs) from rfl] at h
    rw [Bool.or_eq_false_iff] at h
    obtain ⟨h1, h2⟩ := h
    rw [Bool.and_eq_false_iff] at h1
    by_cases hp : sessionsSep.isPrefixOf (c :: cs) = true
    · rw [show findSep sessionsSep (c :: cs) =
        some ([], (c :: cs).drop sessionsSep.length) from by rw [findSep, if_pos hp]] at hf
      rcases h1 with h1 | h1
      · exact absurd hp (by rw [h1]; exact Bool.false_ne_true)
      · have hemp : ((c :: cs).drop sessionsSep.length).isEmpty = true := by
          simpa using h1
        have := List.isEmpty_iff.mp hemp
        injection hf with hf2
        injection hf2 with hba hba2
        rw [← hba2]
        exact this
    · rw [show findSep sessionsSep (c :: cs) =
        (findSep sessionsSep cs).map (fun p => (c :: p.1, p.2)) from by
          rw [findSep, if_neg hp]] at hf
      cases hq : findSep sessionsSep cs with
      | none => rw [hq] at hf; exact absurd hf (by simp)
      | some p =>
        rw [hq] at hf
        simp only [Option.map_some'] at hf
        injection hf with hf2
        injection hf2 with hba hba2
        rw [← hba2]
        exact ih h2 p.1 p.2 (by rw [hq])

/-- A truthy but malformed `session.name` extracts to `null`. -/
theorem extractSessionId_none (n : List Char) (h : hasSessionsId n = false) :
    extractSessionId n = none := by
  unfold extractSessionId splitSecond
  cases hf : findSep sessionsSep n with
  | none => rfl
  | some p =>
    have ha : p.2 = [] := noSessionsId_findSep n h p.1 p.2 (by rw [hf])
    show (match
        match findSep sessionsSep p.2 with
        | none => some p.2
        | some q => some q.1 with
      | none => none
      | some t => if t = [] then none else some t) = none
    rw [ha]
    rw [show findSep sessionsSep [] = none from by decide]
    simp

/-- C10 (implicit): a snapshot whose truthy `session.name` contains no
`/sessions/<identifier>` part overwrites the buffered session id with
`null`, whatever it was before; a stream ending on such a snapshot reports
`sessionId = null` in its Metadata event. -/
theorem claim_C10 (st : RState) (s : Snapshot) (n : List Char)
    (hname : s.session.bind SessionPart.name = some n) (hne : n ≠ [])
    (hno : hasSessionsId n = false) :
    (stepSnap st s).1.extractedSessionId = none ∧
    ∀ prev : List Snapshot,
      runReconciler (prev ++ [s]) =
        runEvents initRState (prev ++ [s]) ++
          [OutEvent.metadata none
            (runState initRState (prev ++ [s])).relatedQuestions
            (runState initRState (prev ++ [s])).references,
           OutEvent.done] := by
  have hsid : ∀ st' : RState, (stepSnap st' s).1.extractedSessionId = none := by
    intro st'
    rw [stepSnap_sid]
    unfold specSidStep
    rw [hname]
    show (if n ≠ [] then extractSessionId n else st'.extractedSessionId) = none
    rw [if_pos hne]
    exact extractSessionId_none n hno
  refine ⟨hsid st, ?_⟩
  intro prev
  unfold runReconciler
  have hrun : (runState initRState (prev ++ [s])).extractedSessionId = none := by
    rw [runState_append prev [s] initRState]
    exact hsid (runState initRState prev)
  rw [hrun]

theorem claim_C10_witness :
    stWithSid.extractedSessionId = some "12345".data ∧
    (stepSnap stWithSid snapBadName).1.extractedSessionId = none :=
  ⟨by decide,
   (claim_C10 stWithSid snapBadName "projects/p/engines/e".data (by decide) (by decide)
      (by decide)).1⟩

/-- Buffer evolution is decided by the scanner alone, not by parse
outcomes. -/
theorem runPipe_buffer_indep (chunks : List (List Char)) :
    ∀ (p q : List Char → Option Snapshot) (st1 st2 : RState) (buf : List Char),
      (runPipe p st1 buf chunks).2.1 = (runPipe q st2 buf chunks).2.1 := by
  induction chunks with
  | nil => intros; rfl
  | cons ch rest ih =>
    intro p q st1 st2 buf
    show (runPipe p (runObjs p st1 (processBuffer (buf ++ ch)).1).1
        (processBuffer (buf ++ ch)).2 rest).2.1 =
      (runPipe q (runObjs q st2 (processBuffer (buf ++ ch)).1).1
        (processBuffer (buf ++ ch)).2 rest).2.1
    exact ih p q _ _ _

/-- C7: an extracted object on which JSON parsing fails contributes no
event and no state change — the run on the remaining objects is identical —
and the pending buffer (hence the removal of the object's bytes and
everything before it) does not depend on parse outcomes at all; later
well-formed objects still produce their events. -/
theorem claim_C7 (parse : List Char → Option Snapshot) (st : RState)
    (o : List Char) (rest : List (List Char)) (hfail : parse o = none) :
    runObjs parse st (o :: rest) = runObjs parse st rest ∧
    ∀ (parse2 : List Char → Option Snapshot) (st2 : RState) (buf : List Char)
      (chunks : List (List Char)),
      (runPipe parse st buf chunks).2.1 = (runPipe parse2 st2 buf chunks).2.1 := by
  constructor
  · have h1 : stepObj parse st o = (st, []) := by
      unfold stepObj
      rw [hfail]
    show ((runObjs parse (stepObj parse st o).1 rest).1,
      (stepObj parse st o).2 ++ (runObjs parse (stepObj parse st o).1 rest).2) = _
    rw [h1]
    simp
  · intro parse2 st2 buf chunks
    exact runPipe_buffer_indep chunks parse parse2 st st2 buf

theorem claim_C7_witness :
    parseNone "\x7b,\x7d".data = none ∧
    runObjs parseNone initRState ["\x7b,\x7d".data] = runObjs parseNone initRState [] :=
  ⟨rfl, (claim_C7 parseNone initRState "\x7b,\x7d".data [] rfl).1⟩

/-- C4: a brace seen while inside a string literal (or under a pending
escape) neither changes the depth counter nor completes an object; a quote
seen under a pending escape does not toggle the inside-string flag; and the
two spec examples — a string value containing a literal closing brace, and
one containing escaped quotes — are each extracted as exactly one complete
object. -/
theorem claim_C4 :
    (∀ st : ScanState, st.inString = true ∨ st.escapeNext = true →
      ((scanChar st '{').1.braceCount = st.braceCount ∧
       (scanChar st '}').1.braceCount = st.braceCount ∧
       (scanChar st '{').2 = none ∧ (scanChar st '}').2 = none)) ∧
    (∀ st : ScanState, st.escapeNext = true →
      (scanChar st '"').1.inString = st.inString) ∧
    processBuffer braceExText = ([braceExText], []) ∧
    processBuffer escExText = ([escExText], []) := by
  refine ⟨?_, ?_, by decide, by decide⟩
  · intro st h
    have d1 : ('{' : Char) ≠ '\\' := by decide
    have d2 : ('{' : Char) ≠ '"' := by decide
    have d3 : ('{' : Char) ≠ '}' := by decide
    have d4 : ('}' : Char) ≠ '\\' := by decide
    have d5 : ('}' : Char) ≠ '"' := by decide
    by_cases he : st.escapeNext = true
    · simp [scanChar, he]
    · rcases h with h | h
      · simp [scanChar, he, h, d1, d2, d3, d4, d5]
      · exact absurd h he
  · intro st h
    simp [scanChar, h]

theorem claim_C4_witness :
    stInString.inString = true ∧
    (scanChar stInString '{').1.braceCount = stInString.braceCount ∧
    (scanChar stInString '}').2 = none ∧
    (scanChar stInString '{').2 = none :=
  ⟨rfl, (claim_C4.1 stInString (Or.inl rfl)).1,
   (claim_C4.1 stInString (Or.inl rfl)).2.2.2,
   (claim_C4.1 stInString (Or.inl rfl)).2.2.1⟩

/-- Per-character bookkeeping: the invariant is preserved, the retained
text grows by at most one character, an extracted object is no longer than
the text scanned so far, and a non-extracting step retains the character. -/
theorem scanChar_props (st : ScanState) (c : Char) (hinv : ScanInv st) :
    ScanInv (scanChar st c).1 ∧
    (scanChar st c).1.pending.length ≤ st.pending.length + 1 ∧
    (∀ o, (scanChar st c).2 = some o → o.length ≤ st.pending.length + 1) ∧
    ((scanChar st c).2 = none → (scanChar st c).1.pending = st.pending ++ [c]) := by
  unfold ScanInv at hinv ⊢
  simp only [scanChar]
  repeat' split
  all_goals refine ⟨?_, ?_, fun o ho => ?_, fun hno => ?_⟩
  all_goals try (injection ho with hoe)
  all_goals try (injection hno)
  all_goals try subst hoe
  all_goals simp_all [List.length_append]
  all_goals omega

theorem scanList_append (p q : List Char) :
    ∀ st, scanList st (p ++ q) =
      ((scanList (scanList st p).1 q).1,
       (scanList st p).2 ++ (scanList (scanList st p).1 q).2) := by
  induction p with
  | nil =>
    intro st
    show scanList st q = ((scanList st q).1, (scanList st [] ).2 ++ (scanList st q).2)
    simp [scanList]
  | cons c cs ih =>
    intro st
    show ((scanList (scanChar st c).1 (cs ++ q)).1,
        (scanChar st c).2.toList ++ (scanList (scanChar st c).1 (cs ++ q)).2) = _
    rw [ih (scanChar st c).1]
    rw [show scanList st (c :: cs) =
      ((scanList (scanChar st c).1 cs).1,
       (scanChar st c).2.toList ++ (scanList (scanChar st c).1 cs).2) from rfl]
    simp [List.append_assoc]

theorem scanList_props (p : List Char) :
    ∀ st, ScanInv st →
      ScanInv (scanList st p).1 ∧
      (∀ o ∈ (scanList st p).2, o.length ≤ st.pending.length + p.length) ∧
      ((scanList st p).2 = [] → (scanList st p).1.pending = st.pending ++ p) := by
  induction p with
  | nil =>
    intro st h
    refine ⟨h, ?_, ?_⟩
    · intro o ho
      exact absurd ho (List.not_mem_nil o)
    · intro _
      simp [scanList]
  | cons c cs ih =>
    intro st hinv
    obtain ⟨hinv', hplen, hsome, hnone⟩ := scanChar_props st c hinv
    obtain ⟨ih1, ih2, ih3⟩ := ih (scanChar st c).1 hinv'
    have hshape : scanList st (c :: cs) =
      ((scanList (scanChar st c).1 cs).1,
       (scanChar st c).2.toList ++ (scanList (scanChar st c).1 cs).2) := rfl
    refine ⟨?_, ?_, ?_⟩
    · rw [hshape]
      exact ih1
    · intro o ho
      rw [hshape] at ho
      simp only [List.length_cons]
      rcases List.mem_append.mp ho with h | h
      · cases hsc : (scanChar st c).2 with
        | none =>
          rw [hsc] at h
          exact absurd h (List.not_mem_nil o)
        | some o' =>
          rw [hsc] at h
          have heq : o = o' := List.mem_singleton.mp h
          have := hsome o' hsc
          rw [heq]
          omega
      · have hb := ih2 o h
        omega
    · intro hnil
      rw [hshape] at hnil ⊢
      have hparts := List.append_eq_nil.mp hnil
      have hsc : (scanChar st c).2 = none := by
        cases hc : (scanChar st c).2 with
        | none => rfl
        | some o' =>
          rw [hc] at hparts
          exact absurd hparts.1 (by simp)
      rw [ih3 hparts.2, hnone hsc]
      simp

/-- A proper prefix of a string that scans to exactly itself as one object
extracts nothing and stays wholly buffered. -/
theorem processBuffer_properPre_empty (p q : List Char) (hq : q ≠ [])
    (h : processBuffer (p ++ q) = ([p ++ q], [])) :
    processBuffer p = ([], p) := by
  have hinv0 : ScanInv initScan := by
    unfold ScanInv initScan
    simp
  have hout : (scanList initScan p).2 ++ (scanList (scanList initScan p).1 q).2 =
      [p ++ q] := by
    have h1 : (scanList initScan (p ++ q)).2 = [p ++ q] := congrArg Prod.fst h
    rw [scanList_append p q initScan] at h1
    exact h1
  cases hA : (scanList initScan p).2 with
  | nil =>
    have hpend := (scanList_props p initScan hinv0).2.2 hA
    show ((scanList initScan p).2, (scanList initScan p).1.pending) = ([], p)
    rw [hA, hpend]
    rfl
  | cons o os =>
    rw [hA] at hout
    have ho : o = p ++ q := by
      have := List.head_eq_of_cons_eq hout
      exact this
    have hmem : o ∈ (scanList initScan p).2 := by
      rw [hA]
      exact List.mem_cons_self o os
    have hlen := (scanList_props p initScan hinv0).2.1 o hmem
    rw [ho] at hlen
    have hlen' : p.length + q.length ≤ p.length := by
      simpa [initScan, List.length_append] using hlen
    have hq0 : q.length = 0 := by omega
    exact absurd (List.length_eq_zero.mp hq0) hq

theorem feedAll_singletons (s : List Char) (h : processBuffer s = ([s], [])) :
    ∀ q p, p ++ q = s → q ≠ [] → feedAll p (oneCharChunks q) = ([s], []) := by
  intro q
  induction q with
  | nil =>
    intro p hpq hq
    exact absurd rfl hq
  | cons c q' ih =>
    intro p hpq hq
    have hshape : feedAll p (oneCharChunks (c :: q')) =
      ((processBuffer (p ++ [c])).1 ++
        (feedAll (processBuffer (p ++ [c])).2 (oneCharChunks q')).1,
       (feedAll (processBuffer (p ++ [c])).2 (oneCharChunks q')).2) := rfl
    cases q' with
    | nil =>
      have hs : p ++ [c] = s := hpq
      rw [hshape, hs, h]
      show ([s] ++ (feedAll [] []).1, (feedAll [] []).2) = ([s], [])
      simp [feedAll]
    | cons d q'' =>
      have hs : (p ++ [c]) ++ (d :: q'') = s := by
        rw [List.append_assoc]
        exact hpq
      have hpb : processBuffer (p ++ [c]) = ([], p ++ [c]) :=
        processBuffer_properPre_empty (p ++ [c]) (d :: q'') (by simp)
          (by rw [hs]; exact h)
      rw [hshape, hpb]
      rw [ih (p ++ [c]) hs (by simp)]
      simp

/-- C3: split-boundary idempotence — any text that the scanner extracts in
one pass as exactly one complete object equal to the whole text yields the
same single object when delivered one character per chunk; in particular
the spec's mid-object two-chunk split of
`{"state":"SUCCEEDED","answerText":"Hi"}` extracts exactly the one object
obtained from the unsplit text. -/
theorem claim_C3 :
    (∀ s : List Char, processBuffer s = ([s], []) →
      feedAll [] (oneCharChunks s) = ([s], [])) ∧
    feedAll [] [splitExChunk1, splitExChunk2] = ([splitExText], []) ∧
    processBuffer splitExText = ([splitExText], []) := by
  refine ⟨?_, by decide, by decide⟩
  intro s h
  have hs : s ≠ [] := by
    intro h0
    subst h0
    rw [show processBuffer [] = ([], []) from rfl] at h
    have := congrArg Prod.fst h
    simp at this
  exact feedAll_singletons s h s [] rfl hs

theorem claim_C3_witness :
    processBuffer splitExText = ([splitExText], []) ∧
    feedAll [] (oneCharChunks splitExText) = ([splitExText], []) :=
  ⟨by decide, claim_C3.1 splitExText (by decide)⟩

end VertexStream
